import Mathlib

/-!
Verification of the apps-dashboard-portal Electron main-process services.

This file gives a shallow embedding of the core services of the repository —
`GitHubService` (version comparison, release asset selection), `VersionCacheService`,
`InstallManager` (install locking, executable discovery, uninstall) and
`LauncherService` — and proves the specification claims about them.

JavaScript strings are modelled as lists of characters (`Str`), in-memory `Map`s and
the persisted `electron-store` database as association lists, and the filesystem
(where needed) as explicit directory listings or an existence predicate. External
I/O outcomes (installer exit codes, network fetch results, spawn results) are passed
in as explicit parameters.
-/

namespace AppsDashboard

/-- JavaScript strings are modelled as lists of characters. -/
abbrev Str := List Char

/-- Converts a Lean string literal into the embedded string type. -/
def str (s : String) : Str := s.toList

/-- JS `toLowerCase` (per-character, adequate for the ASCII names involved). -/
def lowerStr (s : Str) : Str := s.map Char.toLower

/-- JS `replace(/\s+/g, '')`: removes all whitespace characters. -/
def stripSpaces (s : Str) : Str := s.filter (fun c => !c.isWhitespace)

/-- Whether `p` is a leading segment of `l`, character by character. -/
def hasPrefixCh : Str → Str → Bool
  | _, [] => true
  | [], _ :: _ => false
  | a :: as, b :: bs => a == b && hasPrefixCh as bs

/-- JS `includes`: whether `p` occurs in `l` as a contiguous substring. -/
def containsSub : Str → Str → Bool
  | [], p => p.isEmpty
  | c :: t, p => hasPrefixCh (c :: t) p || containsSub t p

/-- JS `endsWith`: whether `p` is a trailing segment of `l`. -/
def hasSuffixCh (l p : Str) : Bool := hasPrefixCh l.reverse p.reverse

/-- JS `String.replace` with a plain-string pattern: replaces the first
occurrence of `p` in the subject by `r` (the subject is unchanged when `p`
does not occur). -/
def replaceFirstSub : Str → Str → Str → Str
  | [], _, _ => []
  | c :: t, p, r =>
      if hasPrefixCh (c :: t) p then r ++ (c :: t).drop p.length
      else c :: replaceFirstSub t p r

/-- JS `split('.')`; note that `"".split('.')` is `[""]`. -/
def splitOnDot : Str → List Str
  | [] => [[]]
  | c :: t =>
      if c = '.' then [] :: splitOnDot t
      else
        match splitOnDot t with
        | [] => [[c]]
        | h :: r => (c :: h) :: r

/-- Windows `path.join` of a directory and one further segment. -/
def pathJoin (a b : Str) : Str := a ++ '\\' :: b

/-- Iteration of a JS `Set` skips elements already inserted; insertion order is kept. -/
def dedupFirstAux {α : Type} [DecidableEq α] (seen : List α) : List α → List α
  | [] => []
  | a :: t => if seen.contains a then dedupFirstAux seen t
              else a :: dedupFirstAux (a :: seen) t

/-- JS `[...new Set(xs)]`: removes duplicates keeping the first occurrence of
each element, preserving insertion order. -/
def dedupFirst {α : Type} [DecidableEq α] (l : List α) : List α := dedupFirstAux [] l

/-- Lookup in a JS `Map` (or in the `apps.<id>` keys of the persisted store),
modelled over an association list with unique keys. -/
def alGet {β : Type} (m : List (Str × β)) (k : Str) : Option β :=
  (m.find? (fun p => p.1 == k)).map Prod.snd

/-- `Map.set` / `store.set`: overwrites any previous binding of the key. -/
def alSet {β : Type} (m : List (Str × β)) (k : Str) (v : β) : List (Str × β) :=
  (k, v) :: m.filter (fun p => p.1 != k)

/-- `Map.delete` / `store.delete`. -/
def alDelete {β : Type} (m : List (Str × β)) (k : Str) : List (Str × β) :=
  m.filter (fun p => p.1 != k)

namespace GitHubService

/-- Value of one version component under JS `Number(component)`: `some n` for a
(possibly empty) decimal digit string — `Number("")` is `0` — and `none` (`NaN`)
when the component contains any other character. -/
def jsToNum (c : Str) : Option Nat :=
  if c.all Char.isDigit then
    some (c.foldl (fun acc d => acc * 10 + (d.toNat - '0'.toNat)) 0)
  else none

/-- JS `replace(/^v/, '')`: strips one leading lowercase `v`. -/
def stripLeadV : Str → Str
  | 'v' :: t => t
  | s => s

/-- `version.replace(/^v/, '').split('.').map(Number)` from `compareVersions`. -/
def parseParts (s : Str) : List (Option Nat) := (splitOnDot (stripLeadV s)).map jsToNum

/-- `v1Parts[i] || 0`: a missing component is `undefined` and a non-numeric one is
`NaN`; both are falsy in JS, so both coerce to `0` (and `0 || 0` is `0`). -/
def coercePart (o : Option Nat) : Nat := o.getD 0

/-- The tail of the comparison loop once the right-hand component list is
exhausted: each remaining left component is compared against `0`. -/
def cmpPartsNil : List (Option Nat) → Int
  | [] => 0
  | a :: as =>
      if coercePart a > 0 then 1
      else if coercePart a < 0 then -1
      else cmpPartsNil as

/-- The index loop of `compareVersions`, running to the longer of the two
component lists, comparing coerced components and returning at the first
strict inequality. -/
def cmpParts : List (Option Nat) → List (Option Nat) → Int
  | as, [] => cmpPartsNil as
  | [], b :: bs =>
      if 0 > coercePart b then 1
      else if 0 < coercePart b then -1
      else cmpParts [] bs
  | a :: as, b :: bs =>
      if coercePart a > coercePart b then 1
      else if coercePart a < coercePart b then -1
      else cmpParts as bs

/-- `GitHubService.compareVersions` from the source. -/
def compareVersions (version1 version2 : Str) : Int :=
  cmpParts (parseParts version1) (parseParts version2)

/-- Modelled from claim C9's words, not from the source: under the claimed
semantics a comparison step in which either component is `NaN` "decides nothing"
(both `>` and `<` are false for `NaN`) and the loop moves on. This is the loop
tail once the right-hand list is exhausted. -/
def cmpPartsClaimedNil : List (Option Nat) → Int
  | [] => 0
  | a :: as =>
      match a with
      | some x => if x > 0 then 1 else cmpPartsClaimedNil as
      | none => cmpPartsClaimedNil as

/-- Modelled from claim C9's words, not from the source: the comparison loop in
which a `NaN` component "decides nothing"; missing trailing components still
count as `0`. -/
def cmpPartsClaimed : List (Option Nat) → List (Option Nat) → Int
  | as, [] => cmpPartsClaimedNil as
  | [], b :: bs =>
      match b with
      | some y => if 0 > y then 1 else if 0 < y then -1 else cmpPartsClaimed [] bs
      | none => cmpPartsClaimed [] bs
  | a :: as, b :: bs =>
      match a, b with
      | some x, some y => if x > y then 1 else if x < y then -1 else cmpPartsClaimed as bs
      | _, _ => cmpPartsClaimed as bs

/-- Modelled from claim C9's words: the whole comparator under the claimed
NaN-decides-nothing semantics. -/
def compareVersionsClaimed (version1 version2 : Str) : Int :=
  cmpPartsClaimed (parseParts version1) (parseParts version2)

/-- One release asset as consumed from the GitHub API response. -/
structure Asset where
  name : Str
  browser_download_url : Str
deriving DecidableEq

/-- `asset.name.toLowerCase().endsWith('.exe')`. -/
def isExeAsset (a : Asset) : Bool := hasSuffixCh (lowerStr a.name) (str ".exe")

/-- `asset.name.toLowerCase().endsWith('.msi')`. -/
def isMsiAsset (a : Asset) : Bool := hasSuffixCh (lowerStr a.name) (str ".msi")

/-- A `.zip` asset whose lowercased name contains `"win"`. -/
def isWinZipAsset (a : Asset) : Bool :=
  hasSuffixCh (lowerStr a.name) (str ".zip") && containsSub (lowerStr a.name) (str "win")

/-- `GitHubService.filterWindowsAssets`. -/
def filterWindowsAssets (assets : List Asset) : List Asset :=
  assets.filter (fun a => isExeAsset a || isMsiAsset a || isWinZipAsset a)

/-- `GitHubService.getBestWindowsAsset`: priority `.exe` > `.msi` > first remaining
Windows asset; `none` when no asset qualifies. -/
def getBestWindowsAsset (assets : List Asset) : Option Asset :=
  let windowsAssets := filterWindowsAssets assets
  match windowsAssets.find? isExeAsset with
  | some a => some a
  | none =>
      match windowsAssets.find? isMsiAsset with
      | some a => some a
      | none => windowsAssets.head?

/-- The fields of a GitHub release relevant to `getAppReleaseInfo`. -/
structure Release where
  tag_name : Str
  assets : List Asset
deriving DecidableEq

/-- The `version` field computed by `getAppReleaseInfo`:
`release.tag_name.replace(/^v/, '')`. -/
def releaseVersion (r : Release) : Str := stripLeadV r.tag_name

/-- The `downloadUrl` field computed by `getAppReleaseInfo`:
`windowsAsset ? windowsAsset.browser_download_url : null`. -/
def releaseDownloadUrl (r : Release) : Option Str :=
  (getBestWindowsAsset r.assets).map Asset.browser_download_url

/-- The release of the spec's resolver scenario: tag `v2.3.0` with an `.exe` and a
`.zip` asset. -/
def demoRelease : Release :=
  ⟨str "v2.3.0",
   [⟨str "app-2.3.0.exe", str "https://dl.example/app-2.3.0.exe"⟩,
    ⟨str "app-2.3.0.zip", str "https://dl.example/app-2.3.0.zip"⟩]⟩

end GitHubService

namespace UpdateChecker

/-- The per-app decision in `UpdateChecker.checkForUpdates`: an update for an app is
reported exactly when `compareVersions(latestVersion, installedVersion) > 0`. -/
def updateAvailable (latestVersion installedVersion : Str) : Bool :=
  decide (GitHubService.compareVersions latestVersion installedVersion > 0)

end UpdateChecker

namespace VersionCacheService

/-- A `VersionCacheService` cache entry: `{ version, fetchedAt, ttl }`. -/
structure CacheEntry where
  version : Str
  fetchedAt : Int
  ttl : Int
deriving DecidableEq

/-- The service state: the in-memory cache map and the configurable default TTL
(initially 300000 ms). -/
structure VCState where
  cache : List (Str × CacheEntry)
  defaultTTL : Int
deriving DecidableEq

/-- Result of the `githubService.getAppReleaseInfo` call as observed by the cache
service: `fetched (some v)` is a response carrying a truthy version, `fetched none`
a response without one, and `failed` a thrown error. -/
inductive FetchOutcome where
  | fetched (version : Option Str)
  | failed
deriving DecidableEq

/-- `VersionCacheService.useFallback`: caches the fallback version for 1 minute and
returns it. -/
def useFallback (st : VCState) (appId fallbackVersion : Str) (timestamp : Int) :
    VCState × Str :=
  ({ st with cache := alSet st.cache appId ⟨fallbackVersion, timestamp, 60000⟩ },
   fallbackVersion)

/-- `VersionCacheService.getLatestVersion`. Returns the state after the call, the
returned version, and whether the GitHub resolver was invoked. -/
def getLatestVersion (st : VCState) (appId fallbackVersion : Str) (now : Int)
    (fetch : FetchOutcome) : VCState × Str × Bool :=
  match alGet st.cache appId with
  | some cached =>
      if now - cached.fetchedAt < cached.ttl then (st, cached.version, false)
      else
        match fetch with
        | .fetched (some v) =>
            ({ st with cache := alSet st.cache appId ⟨v, now, st.defaultTTL⟩ }, v, true)
        | .fetched none =>
            let fb := useFallback st appId fallbackVersion now
            (fb.1, fb.2, true)
        | .failed => (st, cached.version, true)
  | none =>
      match fetch with
      | .fetched (some v) =>
          ({ st with cache := alSet st.cache appId ⟨v, now, st.defaultTTL⟩ }, v, true)
      | .fetched none =>
          let fb := useFallback st appId fallbackVersion now
          (fb.1, fb.2, true)
      | .failed =>
          let fb := useFallback st appId fallbackVersion now
          (fb.1, fb.2, true)

end VersionCacheService

/-- A persisted `AppRecord` (`apps.<id>` in the store). Timestamps are abstracted
to integers. -/
structure AppRecord where
  installedVersion : Str
  installPath : Str
  executablePath : Option Str
  lastLaunched : Option Int
deriving DecidableEq

namespace AppStore

/-- `AppStore.updateLastLaunched`: stamps the record when present, no-op otherwise. -/
def updateLastLaunched (store : List (Str × AppRecord)) (appId : Str) (now : Int) :
    List (Str × AppRecord) :=
  store.map (fun p =>
    if p.1 = appId then (p.1, { p.2 with lastLaunched := some now }) else p)

end AppStore

namespace InstallManager

/-- `path.basename`: the final path segment. -/
def basenameL (p : Str) : Str :=
  (p.reverse.takeWhile (fun c => c != '\\' && c != '/')).reverse

/-- `path.extname`: the basename's suffix from its last dot; empty when the
basename has no dot or only a leading one. -/
def extnameL (p : Str) : Str :=
  let b := basenameL p
  let tailRev := b.reverse.takeWhile (fun c => c != '.')
  if tailRev.length + 1 < b.length then '.' :: tailRev.reverse else []

/-- `InstallManager.detectInstallerType`. -/
def detectInstallerType (filePath : Str) : String :=
  let ext := lowerStr (extnameL filePath)
  if ext = str ".exe" then "exe"
  else if ext = str ".msi" then "msi"
  else if ext = str ".zip" then "zip"
  else "unknown"

/-- The caller-visible outcome of `InstallManager.installApp`. -/
inductive InstallOutcome where
  | alreadyInstalling
  | unknownInstallerType
  | completed
  | failed
deriving DecidableEq

/-- `InstallManager.installApp`, modelling the `activeInstallations` lock map by its
key list. The inner install/extract step and the store write are external effects
summarised by `innerSucceeds`; the function returns the lock map after the call
together with the outcome. -/
def installApp (activeInstallations : List Str) (appId : Str) (installerPath : Str)
    (innerSucceeds : Bool) : List Str × InstallOutcome :=
  if activeInstallations.contains appId then
    (activeInstallations, .alreadyInstalling)
  else if detectInstallerType installerPath = "unknown" then
    (activeInstallations, .unknownInstallerType)
  else
    let locked := appId :: activeInstallations
    let released := locked.filter (fun x => x != appId)
    if innerSucceeds then (released, .completed) else (released, .failed)

/-- `f.toLowerCase().endsWith('.exe')`: the `.exe` filter of the filesystem probes. -/
def isExeName (f : Str) : Bool := hasSuffixCh (lowerStr f) (str ".exe")

/-- `f.toLowerCase().replace(/\s+/g, '').replace('.exe', '')`: the filename
normalisation of priority 1. -/
def normalizeFileName (f : Str) : Str :=
  replaceFirstSub (stripSpaces (lowerStr f)) (str ".exe") []

/-- `appName.toLowerCase().replace(/\s+/g, '')`. -/
def normalizeAppName (appName : Str) : Str := stripSpaces (lowerStr appName)

/-- Priority 1 of the non-recursive probe: normalized filename equals or contains
the normalized app name. -/
def matchesAppName (appName f : Str) : Bool :=
  normalizeFileName f == normalizeAppName appName ||
    containsSub (normalizeFileName f) (normalizeAppName appName)

/-- The installer-noise substrings excluded by priority 2. -/
def installerNoiseWords : List Str :=
  [str "setup", str "install", str "unins", str "updater", str "launcher"]

/-- Priority 2 of the non-recursive probe: the lowercased filename contains none of
the installer-noise substrings. -/
def isNonInstallerName (f : Str) : Bool :=
  installerNoiseWords.all (fun w => !(containsSub (lowerStr f) w))

/-- The per-directory choice of `findInstalledExecutable` phase 1 over the `.exe`
files found in one directory: priority 1, else priority 2, else the first `.exe`. -/
def chooseExe (exeFiles : List Str) (appName : Str) : Option Str :=
  match exeFiles.find? (matchesAppName appName) with
  | some f => some f
  | none =>
      match exeFiles.find? isNonInstallerName with
      | some f => some f
      | none => exeFiles.head?

/-- Phase 1 of `findInstalledExecutable` on one existing directory listing: filters
the `.exe` files and applies the three-priority choice (`none` means the directory
contributes nothing and the search continues). -/
def probeDirectory (files : List Str) (appName : Str) : Option Str :=
  chooseExe (files.filter isExeName) appName

/-- The directory listing of the spec's search-precedence scenario. -/
def demoDirListing : List Str :=
  [str "app.exe", str "setup.exe", str "MyApp Helper.exe"]

/-- Remainder of `l` after the first occurrence of `p` (`none` when `p` does not
occur in `l`). -/
def dropThroughSub : Str → Str → Option Str
  | [], p => if p.isEmpty then some [] else none
  | c :: t, p =>
      if hasPrefixCh (c :: t) p then some ((c :: t).drop p.length)
      else dropThroughSub t p

/-- The `replace(/\.(git)?$/, '')` step of `extractRepoNameFromUrl`. -/
def removeGitSuffix (s : Str) : Str :=
  if hasSuffixCh s (str ".git") then s.take (s.length - 4)
  else if hasSuffixCh s (str ".") then s.take (s.length - 1)
  else s

/-- `InstallManager.extractRepoNameFromUrl`: matches `github.com/<owner>/<repo>`
and returns the repo segment with a trailing `.git` (or bare `.`) removed. -/
def extractRepoNameFromUrl (githubUrl : Option Str) : Option Str :=
  match githubUrl with
  | none => none
  | some url =>
      match dropThroughSub url (str "github.com/") with
      | none => none
      | some rest =>
          let owner := rest.takeWhile (fun c => c != '/')
          if owner.isEmpty then none
          else
            match rest.drop owner.length with
            | '/' :: r2 =>
                let repo := r2.takeWhile (fun c => c != '/')
                if repo.isEmpty then none else some (removeGitSuffix repo)
            | _ => none

/-- `[...new Set([appName, repoName, appId].filter(Boolean))]`: the search-name
list of `findInstalledExecutable`. -/
def buildSearchNames (appName : Option Str) (repoName : Option Str) (appId : Str) :
    List Str :=
  dedupFirst (([appName, repoName, some appId].reduceOption).filter (fun s => !s.isEmpty))

/-- The search names derived from the inputs of `findInstalledExecutable`. -/
def searchNamesFor (appId : Str) (appName : Option Str) (githubUrl : Option Str) :
    List Str :=
  buildSearchNames appName (extractRepoNameFromUrl githubUrl) appId

/-- `path.join('C:', 'Program Files', name)` prefix. -/
def programFilesDir : Str := str "C:\\Program Files"

/-- `path.join('C:', 'Program Files (x86)', name)` prefix. -/
def programFilesX86Dir : Str := str "C:\\Program Files (x86)"

/-- The deduplicated candidate-directory list of the non-recursive phase 1 probe:
for each search name the hint subdirectory, both Program Files trees, the per-user
app-data roots and the per-user local `Programs` tree, plus the raw hint directory. -/
def nonRecursiveSearchPaths (installDir : Str) (searchNames : List Str)
    (localAppData appData : Str) : List Str :=
  dedupFirst
    ((searchNames.flatMap (fun name =>
      [pathJoin installDir name,
       pathJoin programFilesDir name,
       pathJoin programFilesX86Dir name,
       pathJoin localAppData name,
       pathJoin appData name,
       pathJoin (pathJoin localAppData (str "Programs")) name])) ++ [installDir])

/-- The deduplicated root list of the recursive phase 2 probe: the raw hint
directory, then for each search name both Program Files trees and the per-user
app-data roots. -/
def recursiveSearchPaths (installDir : Str) (searchNames : List Str)
    (localAppData appData : Str) : List Str :=
  dedupFirst
    (installDir :: searchNames.flatMap (fun name =>
      [pathJoin programFilesDir name,
       pathJoin programFilesX86Dir name,
       pathJoin localAppData name,
       pathJoin appData name]))

/-- A directory listing as `fs.readdirSync(dir, { withFileTypes: true })`
presents it. -/
inductive FSEntry where
  | file (name : Str)
  | dir (name : Str) (children : List FSEntry)

mutual

/-- One loop iteration of `findExecutablesRecursive` for a single entry: a `.exe`
file is collected, a subdirectory is descended into while the depth bound allows. -/
def findExecsEntry (maxDepth currentDepth : Nat) (base : Str) : FSEntry → List Str
  | .file name => if isExeName name then [pathJoin base name] else []
  | .dir name children =>
      if currentDepth + 1 > maxDepth then []
      else findExecsEntries maxDepth (currentDepth + 1) (pathJoin base name) children

/-- `InstallManager.findExecutablesRecursive` over an in-memory directory listing. -/
def findExecsEntries (maxDepth currentDepth : Nat) (base : Str) :
    List FSEntry → List Str
  | [] => []
  | e :: rest =>
      findExecsEntry maxDepth currentDepth base e ++
        findExecsEntries maxDepth currentDepth base rest

end

mutual

/-- Every file visited by the same traversal as `findExecutablesRecursive`,
regardless of extension, as (full path, entry name) pairs in traversal order. -/
def visitedFilesEntry (maxDepth currentDepth : Nat) (base : Str) :
    FSEntry → List (Str × Str)
  | .file name => [(pathJoin base name, name)]
  | .dir name children =>
      if currentDepth + 1 > maxDepth then []
      else visitedFilesEntries maxDepth (currentDepth + 1) (pathJoin base name) children

/-- Every file visited by the traversal, listing variant. -/
def visitedFilesEntries (maxDepth currentDepth : Nat) (base : Str) :
    List FSEntry → List (Str × Str)
  | [] => []
  | e :: rest =>
      visitedFilesEntry maxDepth currentDepth base e ++
        visitedFilesEntries maxDepth currentDepth base rest

end

/-- Phase 2 of `findInstalledExecutable` on one root:
`findExecutablesRecursive(searchPath, 3)` followed by taking `executables[0]`. -/
def recursiveProbe (root : Str) (listing : List FSEntry) : Option Str :=
  (findExecsEntries 3 0 root listing).head?

/-- The known uninstaller filename set of `findUninstaller`. -/
def uninstallerNames : List Str :=
  [str "uninstall.exe", str "unins000.exe", str "uninst.exe"]

/-- `InstallManager.findUninstaller` over an `fs.existsSync` predicate. -/
def findUninstaller (fsExistsPath : Str → Bool) (installPath : Str) : Option Str :=
  if fsExistsPath installPath then
    (uninstallerNames.find? (fun n => fsExistsPath (pathJoin installPath n))).map
      (fun n => pathJoin installPath n)
  else none

/-- The caller-visible outcome of `InstallManager.uninstallApp`. -/
inductive UninstallOutcome where
  | appNotInstalled
  | completed
  | uninstallerFailed (code : Int)
  | uninstallerStartError
deriving DecidableEq

/-- `InstallManager.uninstallApp`. `uninstallerExit` abstracts `runUninstaller`'s
spawned process: `some code` is the `close` event's exit code, `none` the `error`
event (failure to start). Returns the persisted store after the call and the
outcome. -/
def uninstallApp (store : List (Str × AppRecord)) (appId : Str)
    (fsExistsPath : Str → Bool) (uninstallerExit : Option Int) :
    List (Str × AppRecord) × UninstallOutcome :=
  match alGet store appId with
  | none => (store, .appNotInstalled)
  | some appInfo =>
      match findUninstaller fsExistsPath appInfo.installPath with
      | some _ =>
          match uninstallerExit with
          | some code =>
              if code = 0 then (alDelete store appId, .completed)
              else (store, .uninstallerFailed code)
          | none => (store, .uninstallerStartError)
      | none => (alDelete store appId, .completed)

/-- A sample installed record used to exercise the uninstall paths. -/
def demoRecord : AppRecord :=
  ⟨str "1.0.0", str "C:\\Apps\\demo", some (str "C:\\Apps\\demo\\demo.exe"), none⟩

/-- A sample persisted store holding `demoRecord` under the identity `demo`. -/
def demoStore : List (Str × AppRecord) := [(str "demo", demoRecord)]

/-- A sample filesystem in which the demo install path and its `uninstall.exe`
exist. -/
def demoFs : Str → Bool := fun p =>
  p == str "C:\\Apps\\demo" || p == str "C:\\Apps\\demo\\uninstall.exe"

end InstallManager

namespace LauncherService

/-- The caller-visible outcome of `LauncherService.launchApp`. -/
inductive LaunchOutcome where
  | appNotInstalled
  | missingExecutablePath
  | executableGone
  | alreadyRunning
  | launchStartError
  | launched
deriving DecidableEq

/-- `LauncherService.launchApp`. `spawnPid` abstracts `spawn`: `some pid` when the
process starts, `none` when `spawn` throws synchronously. Returns the persisted
store, the `runningProcesses` key list, the outcome, and whether a spawn was
attempted. -/
def launchApp (store : List (Str × AppRecord)) (runningProcesses : List Str)
    (fsExistsPath : Str → Bool) (appId : Str) (spawnPid : Option Nat) (now : Int) :
    List (Str × AppRecord) × List Str × LaunchOutcome × Bool :=
  match alGet store appId with
  | none => (store, runningProcesses, .appNotInstalled, false)
  | some appInfo =>
      match appInfo.executablePath with
      | none => (store, runningProcesses, .missingExecutablePath, false)
      | some exePath =>
          if !fsExistsPath exePath then
            (store, runningProcesses, .executableGone, false)
          else if runningProcesses.contains appId then
            (store, runningProcesses, .alreadyRunning, false)
          else
            match spawnPid with
            | none => (store, runningProcesses, .launchStartError, true)
            | some _ =>
                (AppStore.updateLastLaunched store appId now,
                 appId :: runningProcesses, .launched, true)

end LauncherService

/-! ## Helper lemmas -/

theorem mem_dedupFirstAux {α : Type} [DecidableEq α] (l : List α) (seen : List α) (x : α) :
    x ∈ dedupFirstAux seen l ↔ x ∈ l ∧ x ∉ seen := by
  induction l generalizing seen with
  | nil => simp [dedupFirstAux]
  | cons a t ih =>
      simp only [dedupFirstAux]
      by_cases ha : a ∈ seen
      · rw [if_pos (by simpa using ha), ih]
        simp only [List.mem_cons]
        constructor
        · rintro ⟨hx, hs⟩
          exact ⟨Or.inr hx, hs⟩
        · rintro ⟨rfl | hx, hs⟩
          · exact absurd ha hs
          · exact ⟨hx, hs⟩
      · rw [if_neg (by simpa using ha)]
        simp only [List.mem_cons, ih, List.mem_cons]
        constructor
        · rintro (rfl | ⟨hx, hs⟩)
          · exact ⟨Or.inl rfl, ha⟩
          · exact ⟨Or.inr hx, fun hc => hs (Or.inr hc)⟩
        · rintro ⟨rfl | hx, hs⟩
          · exact Or.inl rfl
          · by_cases hxa : x = a
            · exact Or.inl hxa
            · exact Or.inr ⟨hx, fun h => (h.elim hxa hs)⟩

theorem mem_dedupFirst {α : Type} [DecidableEq α] (l : List α) (x : α) :
    x ∈ dedupFirst l ↔ x ∈ l := by
  rw [dedupFirst, mem_dedupFirstAux]
  simp

/-- A `find?` hit splits the list into an unsatisfying front part, the hit and a tail. -/
theorem find?_split {α : Type} (p : α → Bool) (l : List α) (c : α)
    (h : l.find? p = some c) :
    ∃ l1 l2, l = l1 ++ c :: l2 ∧ (∀ x ∈ l1, p x = false) ∧ p c = true := by
  induction l with
  | nil => simp [List.find?] at h
  | cons a t ih =>
      by_cases hp : p a = true
      · rw [List.find?_cons_of_pos _ hp] at h
        cases h
        exact ⟨[], t, rfl, by simp, hp⟩
      · rw [List.find?_cons_of_neg _ hp] at h
        obtain ⟨l1, l2, rfl, hfront, hc⟩ := ih h
        exact ⟨a :: l1, l2, rfl, by
          intro x hx
          rcases List.mem_cons.mp hx with rfl | hx
          · exact Bool.eq_false_iff.mpr hp
          · exact hfront x hx, hc⟩

/-- A satisfying member guarantees that `find?` hits. -/
theorem find?_isSome_of_mem {α : Type} (p : α → Bool) (l : List α) (a : α)
    (ha : a ∈ l) (hp : p a = true) : ∃ c, l.find? p = some c := by
  induction l with
  | nil => cases ha
  | cons b t ih =>
      by_cases hb : p b = true
      · exact ⟨b, List.find?_cons_of_pos _ hb⟩
      · rcases List.mem_cons.mp ha with rfl | ha'
        · exact absurd hp hb
        · obtain ⟨c, hc⟩ := ih ha'
          exact ⟨c, by rw [List.find?_cons_of_neg _ hb]; exact hc⟩

/-- When no member satisfies `p`, `find?` misses. -/
theorem find?_eq_none_of_forall {α : Type} (p : α → Bool) (l : List α)
    (h : ∀ x ∈ l, p x = false) : l.find? p = none := by
  induction l with
  | nil => rfl
  | cons a t ih =>
      rw [List.find?_cons_of_neg _ (by simp [h a (List.mem_cons_self a t)])]
      exact ih (fun x hx => h x (List.mem_cons_of_mem a hx))

theorem alGet_alSet {β : Type} (m : List (Str × β)) (k : Str) (v : β) :
    alGet (alSet m k v) k = some v := by
  unfold alGet alSet
  rw [List.find?_cons_of_pos _ (by simp)]
  rfl

theorem alGet_updateLastLaunched (store : List (Str × AppRecord)) (appId : Str)
    (now : Int) :
    alGet (AppStore.updateLastLaunched store appId now) appId =
      (alGet store appId).map (fun r => { r with lastLaunched := some now }) := by
  induction store with
  | nil => rfl
  | cons p t ih =>
      by_cases hp : p.1 = appId
      · simp only [AppStore.updateLastLaunched, List.map_cons, if_pos hp, alGet]
        rw [List.find?_cons_of_pos _ (by simp [hp]), List.find?_cons_of_pos _ (by simp [hp])]
        rfl
      · simp only [AppStore.updateLastLaunched, List.map_cons, if_neg hp, alGet]
        rw [List.find?_cons_of_neg _ (by simp [hp]), List.find?_cons_of_neg _ (by simp [hp])]
        simpa [AppStore.updateLastLaunched, alGet] using ih

namespace GitHubService

theorem cmpParts_as_nil (as : List (Option Nat)) : cmpParts as [] = cmpPartsNil as := by
  cases as <;> rfl

theorem cmpParts_self (l : List (Option Nat)) : cmpParts l l = 0 := by
  induction l with
  | nil => simp [cmpParts_as_nil, cmpPartsNil]
  | cons a t ih => simp [cmpParts, ih]

theorem cmpPartsNil_neg (as : List (Option Nat)) :
    cmpPartsNil as = -cmpParts [] as := by
  induction as with
  | nil => simp [cmpParts_as_nil, cmpPartsNil]
  | cons a t ih =>
      simp only [cmpPartsNil, cmpParts]
      rcases Nat.lt_trichotomy (coercePart a) 0 with h | h | h
      · omega
      · simp [h, ih]
      · simp [h, Nat.not_lt_of_gt h]

theorem cmpParts_antisymm (as bs : List (Option Nat)) :
    cmpParts as bs = -cmpParts bs as := by
  induction as generalizing bs with
  | nil =>
      rw [cmpParts_as_nil, cmpPartsNil_neg, neg_neg]
  | cons a t ih =>
      cases bs with
      | nil => rw [cmpParts_as_nil, cmpPartsNil_neg]
      | cons b u =>
          simp only [cmpParts]
          rcases Nat.lt_trichotomy (coercePart a) (coercePart b) with h | h | h
          · simp [h, Nat.not_lt_of_gt h]
          · simp [h, ih]
          · simp [h, Nat.not_lt_of_gt h]

theorem cmpPartsNil_trichotomy (as : List (Option Nat)) :
    cmpPartsNil as = -1 ∨ cmpPartsNil as = 0 ∨ cmpPartsNil as = 1 := by
  induction as with
  | nil => simp [cmpPartsNil]
  | cons a t ih =>
      simp only [cmpPartsNil]
      split
      · simp
      · split
        · simp
        · exact ih

theorem cmpParts_trichotomy (as bs : List (Option Nat)) :
    cmpParts as bs = -1 ∨ cmpParts as bs = 0 ∨ cmpParts as bs = 1 := by
  induction as generalizing bs with
  | nil =>
      induction bs with
      | nil => rw [cmpParts_as_nil]; exact cmpPartsNil_trichotomy []
      | cons b u ihb =>
          simp only [cmpParts]
          split
          · simp
          · split
            · simp
            · exact ihb
  | cons a t ih =>
      cases bs with
      | nil => rw [cmpParts_as_nil]; exact cmpPartsNil_trichotomy (a :: t)
      | cons b u =>
          simp only [cmpParts]
          split
          · simp
          · split
            · simp
            · exact ih u

theorem stripLeadV_of_head_ne (s : Str) (h : s.head? ≠ some 'v') :
    stripLeadV s = s := by
  cases s with
  | nil => rfl
  | cons c t =>
      have hc : c ≠ 'v' := fun hcv => h (by simp [hcv])
      simp only [stripLeadV]
      split
      · next heq =>
          injection heq with h1 _
          exact absurd h1 hc
      · rfl

theorem getBestWindowsAsset_eq_none_iff (assets : List Asset) :
    getBestWindowsAsset assets = none ↔ filterWindowsAssets assets = [] := by
  unfold getBestWindowsAsset
  cases hfe : (filterWindowsAssets assets).find? isExeAsset with
  | some a =>
      simp only [hfe]
      constructor
      · intro h; cases h
      · intro h; rw [h] at hfe; cases hfe
  | none =>
      cases hfm : (filterWindowsAssets assets).find? isMsiAsset with
      | some a =>
          simp only [hfe, hfm]
          constructor
          · intro h; cases h
          · intro h; rw [h] at hfm; cases hfm
      | none =>
          simp only [hfe, hfm]
          exact List.head?_eq_none_iff

end GitHubService

namespace InstallManager

/-- The depth-bounded recursive walk collects exactly the `.exe` entries of its
visit order, in that order. -/
theorem findExecs_eq_visited (maxDepth : Nat) :
    ∀ (currentDepth : Nat) (base : Str) (entries : List FSEntry),
      findExecsEntries maxDepth currentDepth base entries =
        ((visitedFilesEntries maxDepth currentDepth base entries).filter
            (fun q => isExeName q.2)).map Prod.fst
  | _, _, [] => by
      simp [findExecsEntries, visitedFilesEntries]
  | d, base, .file nm :: rest => by
      have hr := findExecs_eq_visited maxDepth d base rest
      by_cases hx : isExeName nm = true
      · simp [findExecsEntries, findExecsEntry, visitedFilesEntries,
          visitedFilesEntry, hx, hr]
      · simp [findExecsEntries, findExecsEntry, visitedFilesEntries,
          visitedFilesEntry, hx, hr]
  | d, base, .dir nm children :: rest => by
      have hr := findExecs_eq_visited maxDepth d base rest
      by_cases hd : d + 1 > maxDepth
      · simp [findExecsEntries, findExecsEntry, visitedFilesEntries,
          visitedFilesEntry, hd, hr]
      · have hc := findExecs_eq_visited maxDepth (d + 1) (pathJoin base nm) children
        simp [findExecsEntries, findExecsEntry, visitedFilesEntries,
          visitedFilesEntry, hd, hr, hc]
termination_by _ _ entries => sizeOf entries

end InstallManager

/-! ## Claims -/

/-- C2: for all version strings, `compareVersions(a,b) = -compareVersions(b,a)` and
`compareVersions(a,a) = 0`; missing trailing components count as 0, so
`compareVersions("1.2", "1.2.0") = 0`; and the comparator only returns -1, 0 or 1. -/
theorem c2_compare_versions_algebra :
    (∀ a b : Str, GitHubService.compareVersions a b = -GitHubService.compareVersions b a) ∧
    (∀ a : Str, GitHubService.compareVersions a a = 0) ∧
    GitHubService.compareVersions (str "1.2") (str "1.2.0") = 0 ∧
    (∀ a b : Str, GitHubService.compareVersions a b = -1 ∨
      GitHubService.compareVersions a b = 0 ∨ GitHubService.compareVersions a b = 1) :=
  ⟨fun _ _ => GitHubService.cmpParts_antisymm _ _,
   fun _ => GitHubService.cmpParts_self _,
   by decide,
   fun _ _ => GitHubService.cmpParts_trichotomy _ _⟩

/-- C9 counterexample: `compareVersions` coerces a `NaN` component to 0 through the
`|| 0` fallback, so for `"9-beta"` vs `"1"` the non-numeric component does decide
the comparison (the code returns -1), while under the claim's semantics — the NaN
comparison "decides nothing" — the result would be 0 and the versions would
compare equal. -/
theorem c9_counterexample :
    GitHubService.compareVersions (str "9-beta") (str "1") = -1 ∧
    GitHubService.compareVersionsClaimed (str "9-beta") (str "1") = 0 := by
  decide

/-- C9 (amended): a non-numeric component is coerced to 0 by the `|| 0` fallback
(`NaN` is falsy) and then compared as 0 — it does not skip the comparison; hence
`compareVersions("1.0-beta", "1.0") = 0` and
`compareVersions("1.0.0-rc1", "1.0.0") = 0`, and turning the final component of a
version non-numeric (a dot-free pre-release suffix) can only yield a comparison of
-1 or 0 against the unsuffixed version, so no update is ever reported for it. -/
theorem c9_nan_coerced_to_zero :
    (∀ (as bs : List (Option Nat)),
        GitHubService.cmpParts (none :: as) bs =
          GitHubService.cmpParts (some 0 :: as) bs) ∧
    GitHubService.compareVersions (str "1.0-beta") (str "1.0") = 0 ∧
    GitHubService.compareVersions (str "1.0.0-rc1") (str "1.0.0") = 0 ∧
    (∀ (ps : List Nat), ps ≠ [] →
        GitHubService.cmpParts (ps.dropLast.map some ++ [none]) (ps.map some) ≤ 0) ∧
    UpdateChecker.updateAvailable (str "1.0.0-rc1") (str "1.0.0") = false := by
  refine ⟨fun as bs => by cases bs <;> rfl, by decide, by decide, ?_, by decide⟩
  intro ps
  induction ps with
  | nil => intro h; exact absurd rfl h
  | cons p t ih =>
      intro _
      cases t with
      | nil =>
          show GitHubService.cmpParts [none] [some p] ≤ 0
          rcases Nat.eq_zero_or_pos p with hp | hp
          · subst hp; decide
          · simp [GitHubService.cmpParts, GitHubService.coercePart,
              Nat.not_lt_of_gt hp, hp]
      | cons q u =>
          have h := ih (by simp)
          show GitHubService.cmpParts
              (some p :: (((q :: u).dropLast.map some) ++ [none]))
              (some p :: ((q :: u).map some)) ≤ 0
          simpa [GitHubService.cmpParts, GitHubService.coercePart] using h

/-- C9 witness: the suffix bound applied to the one-component version `"5"`. -/
theorem c9_witness :
    GitHubService.cmpParts (([5] : List Nat).dropLast.map some ++ [none])
      (([5] : List Nat).map some) ≤ 0 :=
  c9_nan_coerced_to_zero.2.2.2.1 [5] (by decide)

/-- C6: the resolver returns the tag with one leading `v` stripped as the version,
selects the best asset with priority `.exe` over `.msi` over a `win`-containing
`.zip` (each tier chosen only when every earlier tier is empty), yields a null
download URL exactly when no asset qualifies, and on the scenario release
(`v2.3.0` with an `.exe` and a plain `.zip`) returns version `2.3.0` and the
`.exe` asset's URL. -/
theorem c6_release_resolution :
    (∀ (t : Str) (assets : List GitHubService.Asset),
        GitHubService.releaseVersion ⟨'v' :: t, assets⟩ = t) ∧
    (∀ r : GitHubService.Release, r.tag_name.head? ≠ some 'v' →
        GitHubService.releaseVersion r = r.tag_name) ∧
    (∀ assets : List GitHubService.Asset,
        (∃ a ∈ GitHubService.filterWindowsAssets assets,
            GitHubService.isExeAsset a = true) →
        ∃ a, GitHubService.getBestWindowsAsset assets = some a ∧
          GitHubService.isExeAsset a = true) ∧
    (∀ assets : List GitHubService.Asset,
        (∀ a ∈ GitHubService.filterWindowsAssets assets,
            GitHubService.isExeAsset a = false) →
        (∃ a ∈ GitHubService.filterWindowsAssets assets,
            GitHubService.isMsiAsset a = true) →
        ∃ a, GitHubService.getBestWindowsAsset assets = some a ∧
          GitHubService.isMsiAsset a = true) ∧
    (∀ assets : List GitHubService.Asset,
        (∀ a ∈ GitHubService.filterWindowsAssets assets,
            GitHubService.isExeAsset a = false) →
        (∀ a ∈ GitHubService.filterWindowsAssets assets,
            GitHubService.isMsiAsset a = false) →
        GitHubService.getBestWindowsAsset assets =
          (GitHubService.filterWindowsAssets assets).head? ∧
        ∀ a ∈ GitHubService.filterWindowsAssets assets,
          GitHubService.isWinZipAsset a = true) ∧
    (∀ r : GitHubService.Release,
        GitHubService.releaseDownloadUrl r = none ↔
          GitHubService.filterWindowsAssets r.assets = []) ∧
    (GitHubService.releaseVersion GitHubService.demoRelease = str "2.3.0" ∧
     GitHubService.releaseDownloadUrl GitHubService.demoRelease =
       some (str "https://dl.example/app-2.3.0.exe")) := by
  refine ⟨fun t assets => rfl,
    fun r h => GitHubService.stripLeadV_of_head_ne r.tag_name h,
    ?_, ?_, ?_, ?_, by decide⟩
  · intro assets hex
    obtain ⟨a, ha, hpa⟩ := hex
    obtain ⟨c, hc⟩ := find?_isSome_of_mem _ _ a ha hpa
    refine ⟨c, ?_, List.find?_some hc⟩
    simp only [GitHubService.getBestWindowsAsset, hc]
  · intro assets hnoexe hmsi
    obtain ⟨a, ha, hpa⟩ := hmsi
    have hfe : (GitHubService.filterWindowsAssets assets).find?
        GitHubService.isExeAsset = none := find?_eq_none_of_forall _ _ hnoexe
    obtain ⟨c, hc⟩ := find?_isSome_of_mem _ _ a ha hpa
    refine ⟨c, ?_, List.find?_some hc⟩
    simp only [GitHubService.getBestWindowsAsset, hfe, hc]
  · intro assets hnoexe hnomsi
    have hfe : (GitHubService.filterWindowsAssets assets).find?
        GitHubService.isExeAsset = none := find?_eq_none_of_forall _ _ hnoexe
    have hfm : (GitHubService.filterWindowsAssets assets).find?
        GitHubService.isMsiAsset = none := find?_eq_none_of_forall _ _ hnomsi
    refine ⟨by simp only [GitHubService.getBestWindowsAsset, hfe, hfm], ?_⟩
    intro a ha
    have := List.of_mem_filter ha
    have h1 := hnoexe a ha
    have h2 := hnomsi a ha
    simp only [h1, h2, Bool.false_or] at this
    exact this
  · intro r
    unfold GitHubService.releaseDownloadUrl
    rw [Option.map_eq_none']
    exact GitHubService.getBestWindowsAsset_eq_none_iff r.assets

/-- C6 witness: the exe-priority tier applied to the scenario release's assets. -/
theorem c6_witness :
    ∃ a, GitHubService.getBestWindowsAsset GitHubService.demoRelease.assets = some a ∧
      GitHubService.isExeAsset a = true :=
  c6_release_resolution.2.2.1 GitHubService.demoRelease.assets
    ⟨⟨str "app-2.3.0.exe", str "https://dl.example/app-2.3.0.exe"⟩, by decide, by decide⟩

/-- C3: a second `installApp` call while a task for the identity exists fails
immediately with AlreadyInstalling and leaves the lock map untouched; a call that
passes the guard leaves no lock entry for the identity when it returns — on
success, on unknown-installer-type rejection, and on inner failure alike. -/
theorem c3_install_lock :
    (∀ (active : List Str) (appId installerPath : Str) (innerSucceeds : Bool),
        appId ∈ active →
        InstallManager.installApp active appId installerPath innerSucceeds =
          (active, .alreadyInstalling)) ∧
    (∀ (active : List Str) (appId installerPath : Str) (innerSucceeds : Bool),
        appId ∉ active →
        appId ∉ (InstallManager.installApp active appId installerPath innerSucceeds).1) := by
  constructor
  · intro active appId installerPath innerSucceeds h
    have hc : active.contains appId = true := by simpa using h
    unfold InstallManager.installApp
    rw [hc]
    simp
  · intro active appId installerPath innerSucceeds h
    have hc : active.contains appId = false := by simpa using h
    simp only [InstallManager.installApp, hc, Bool.false_eq_true, if_false]
    by_cases hd : InstallManager.detectInstallerType installerPath = "unknown"
    · simp only [hd, if_true]
      exact h
    · simp only [hd, if_false]
      cases innerSucceeds <;> simp [List.mem_filter]

/-- C3 witness: a fresh identity's lock entry is absent after a successful call. -/
theorem c3_witness :
    (str "other") ∉
      (InstallManager.installApp [str "busy"] (str "other") (str "tool.exe") true).1 :=
  c3_install_lock.2 [str "busy"] (str "other") (str "tool.exe") true (by decide)

/-- C4 counterexample: for the demo store, an uninstaller is found and exits with
code 1; `uninstallApp` then reports the uninstaller failure and the AppRecord is
NOT removed — refuting "in all cases the record is deleted". -/
theorem c4_counterexample :
    (InstallManager.uninstallApp InstallManager.demoStore (str "demo")
        InstallManager.demoFs (some 1)).2 = .uninstallerFailed 1 ∧
    alGet (InstallManager.uninstallApp InstallManager.demoStore (str "demo")
        InstallManager.demoFs (some 1)).1 (str "demo") =
      some InstallManager.demoRecord := by
  decide

/-- C4 (amended): `uninstallApp` removes the persisted AppRecord when no known
uninstaller filename is found in the recorded install path, or when the found
uninstaller is run and exits 0; when a found uninstaller exits nonzero or fails to
start, the error propagates and the record is NOT removed. -/
theorem c4_uninstall_record_removal :
    ∀ (store : List (Str × AppRecord)) (appId : Str) (fsE : Str → Bool)
      (uex : Option Int) (r : AppRecord),
      alGet store appId = some r →
      ((InstallManager.findUninstaller fsE r.installPath = none →
          InstallManager.uninstallApp store appId fsE uex =
            (alDelete store appId, .completed)) ∧
       (InstallManager.findUninstaller fsE r.installPath ≠ none →
          (uex = some 0 →
            InstallManager.uninstallApp store appId fsE uex =
              (alDelete store appId, .completed)) ∧
          (∀ code : Int, uex = some code → code ≠ 0 →
            InstallManager.uninstallApp store appId fsE uex =
              (store, .uninstallerFailed code)) ∧
          (uex = none →
            InstallManager.uninstallApp store appId fsE uex =
              (store, .uninstallerStartError)))) := by
  intro store appId fsE uex r hget
  simp only [InstallManager.uninstallApp, hget]
  constructor
  · intro hnone
    simp only [hnone]
  · intro hsome
    cases hfu : InstallManager.findUninstaller fsE r.installPath with
    | none => exact absurd hfu hsome
    | some u =>
        simp only [hfu]
        refine ⟨?_, ?_, ?_⟩
        · rintro rfl
          simp
        · rintro code rfl hcode
          simp [hcode]
        · rintro rfl
          rfl

/-- C4 witness: with the demo store and a zero exit code, the record is removed. -/
theorem c4_witness :
    InstallManager.uninstallApp InstallManager.demoStore (str "demo")
      InstallManager.demoFs (some 0) =
      (alDelete InstallManager.demoStore (str "demo"), .completed) :=
  ((c4_uninstall_record_removal InstallManager.demoStore (str "demo")
      InstallManager.demoFs (some 0) InstallManager.demoRecord (by decide)).2
      (by decide)).1 rfl

/-- C5: `getLatestVersion` returns without invoking the resolver exactly when a
cache entry with `now - fetchedAt < ttl` exists, and then returns that entry's
version unchanged; an entry aged exactly `ttl` triggers a fetch; when the fetch
fails, an expired entry's version is returned, and with no entry at all the
fallback is stored with a 1-minute TTL and returned. -/
theorem c5_version_cache :
    (∀ (st : VersionCacheService.VCState) (appId fb : Str) (now : Int)
        (fetch : VersionCacheService.FetchOutcome),
        ((VersionCacheService.getLatestVersion st appId fb now fetch).2.2 = false ↔
          ∃ c, alGet st.cache appId = some c ∧ now - c.fetchedAt < c.ttl)) ∧
    (∀ (st : VersionCacheService.VCState) (appId fb : Str) (now : Int)
        (fetch : VersionCacheService.FetchOutcome)
        (c : VersionCacheService.CacheEntry),
        alGet st.cache appId = some c → now - c.fetchedAt < c.ttl →
        VersionCacheService.getLatestVersion st appId fb now fetch =
          (st, c.version, false)) ∧
    (∀ (st : VersionCacheService.VCState) (appId fb : Str) (now : Int)
        (fetch : VersionCacheService.FetchOutcome)
        (c : VersionCacheService.CacheEntry),
        alGet st.cache appId = some c → now - c.fetchedAt = c.ttl →
        (VersionCacheService.getLatestVersion st appId fb now fetch).2.2 = true) ∧
    (∀ (st : VersionCacheService.VCState) (appId fb : Str) (now : Int)
        (c : VersionCacheService.CacheEntry),
        alGet st.cache appId = some c → ¬(now - c.fetchedAt < c.ttl) →
        VersionCacheService.getLatestVersion st appId fb now .failed =
          (st, c.version, true)) ∧
    (∀ (st : VersionCacheService.VCState) (appId fb : Str) (now : Int),
        alGet st.cache appId = none →
        VersionCacheService.getLatestVersion st appId fb now .failed =
          ((VersionCacheService.useFallback st appId fb now).1, fb, true) ∧
        alGet (VersionCacheService.getLatestVersion st appId fb now .failed).1.cache
          appId = some ⟨fb, now, 60000⟩) := by
  refine ⟨?_, ?_, ?_, ?_, ?_⟩
  · intro st appId fb now fetch
    unfold VersionCacheService.getLatestVersion
    cases hg : alGet st.cache appId with
    | none =>
        cases fetch with
        | fetched v => cases v <;> simp
        | failed => simp
    | some c =>
        by_cases hfresh : now - c.fetchedAt < c.ttl
        · simp only [hfresh, if_true]
          simp only [true_iff, eq_self_iff_true]
          exact ⟨c, rfl, hfresh⟩
        · simp only [hfresh, if_false]
          cases fetch with
          | fetched v =>
              cases v with
              | none =>
                  simp only [Bool.true_eq_false, false_iff, not_exists, not_and]
                  rintro c' hc'
                  cases hc'
                  exact hfresh
              | some w =>
                  simp only [Bool.true_eq_false, false_iff, not_exists, not_and]
                  rintro c' hc'
                  cases hc'
                  exact hfresh
          | failed =>
              simp only [Bool.true_eq_false, false_iff, not_exists, not_and]
              rintro c' hc'
              cases hc'
              exact hfresh
  · intro st appId fb now fetch c hg hfresh
    unfold VersionCacheService.getLatestVersion
    rw [hg]
    simp [hfresh]
  · intro st appId fb now fetch c hg hage
    unfold VersionCacheService.getLatestVersion
    rw [hg]
    have hnf : ¬(now - c.fetchedAt < c.ttl) := by rw [hage]; exact lt_irrefl _
    simp only [hnf, if_false]
    cases fetch with
    | fetched v => cases v <;> simp
    | failed => simp
  · intro st appId fb now c hg hnf
    unfold VersionCacheService.getLatestVersion
    rw [hg]
    simp [hnf]
  · intro st appId fb now hg
    unfold VersionCacheService.getLatestVersion
    rw [hg]
    exact ⟨rfl, alGet_alSet _ _ _⟩

/-- C5 witness: a fresh entry (age 100 ms, TTL 300000 ms) is served from the cache
without a fetch. -/
theorem c5_witness :
    VersionCacheService.getLatestVersion
      ⟨[(str "a", ⟨str "1.0", 0, 300000⟩)], 300000⟩ (str "a") (str "0.9") 100 .failed =
      (⟨[(str "a", ⟨str "1.0", 0, 300000⟩)], 300000⟩, str "1.0", false) :=
  c5_version_cache.2.1 ⟨[(str "a", ⟨str "1.0", 0, 300000⟩)], 300000⟩ (str "a")
    (str "0.9") 100 .failed ⟨str "1.0", 0, 300000⟩ (by decide) (by decide)

/-- C10: when the resolver response carries no version, `getLatestVersion` returns
the fallback and overwrites the cache entry with the fallback at a 1-minute TTL,
even when an expired entry exists; the expired entry's version is returned only on
the fetch-failure path. -/
theorem c10_degenerate_success_uses_fallback :
    ∀ (st : VersionCacheService.VCState) (appId fb : Str) (now : Int)
      (c : VersionCacheService.CacheEntry),
      alGet st.cache appId = some c → ¬(now - c.fetchedAt < c.ttl) →
      ((VersionCacheService.getLatestVersion st appId fb now (.fetched none)).2.1 = fb ∧
       alGet (VersionCacheService.getLatestVersion st appId fb now
           (.fetched none)).1.cache appId = some ⟨fb, now, 60000⟩ ∧
       (VersionCacheService.getLatestVersion st appId fb now .failed).2.1 =
         c.version) := by
  intro st appId fb now c hg hnf
  have h1 : VersionCacheService.getLatestVersion st appId fb now (.fetched none) =
      ((VersionCacheService.useFallback st appId fb now).1, fb, true) := by
    unfold VersionCacheService.getLatestVersion
    rw [hg]
    simp [hnf, VersionCacheService.useFallback]
  have h2 : VersionCacheService.getLatestVersion st appId fb now .failed =
      (st, c.version, true) := by
    unfold VersionCacheService.getLatestVersion
    rw [hg]
    simp [hnf]
  rw [h1, h2]
  refine ⟨rfl, ?_, rfl⟩
  unfold VersionCacheService.useFallback
  exact alGet_alSet _ _ _

/-- C10 witness: an expired entry (age 400000 ms, TTL 300000 ms) is bypassed on the
no-version path, which caches and returns the fallback. -/
theorem c10_witness :
    (VersionCacheService.getLatestVersion
      ⟨[(str "a", ⟨str "1.0", 0, 300000⟩)], 300000⟩ (str "a") (str "0.9") 400000
      (.fetched none)).2.1 = str "0.9" :=
  (c10_degenerate_success_uses_fallback
    ⟨[(str "a", ⟨str "1.0", 0, 300000⟩)], 300000⟩ (str "a") (str "0.9") 400000
    ⟨str "1.0", 0, 300000⟩ (by decide) (by decide)).1

/-- C7: `launchApp` performs no spawn and fails when no AppRecord exists, when the
record has a null executable path, when that path no longer exists on disk, or
when the identity is already tracked as running; and whenever it reports a
successful launch it has stamped the record's `lastLaunched` and registered the
running process. -/
theorem c7_launch_guards :
    (∀ (store : List (Str × AppRecord)) (running : List Str) (fsE : Str → Bool)
        (appId : Str) (spawnPid : Option Nat) (now : Int),
        alGet store appId = none →
        LauncherService.launchApp store running fsE appId spawnPid now =
          (store, running, .appNotInstalled, false)) ∧
    (∀ (store : List (Str × AppRecord)) (running : List Str) (fsE : Str → Bool)
        (appId : Str) (spawnPid : Option Nat) (now : Int) (r : AppRecord),
        alGet store appId = some r → r.executablePath = none →
        LauncherService.launchApp store running fsE appId spawnPid now =
          (store, running, .missingExecutablePath, false)) ∧
    (∀ (store : List (Str × AppRecord)) (running : List Str) (fsE : Str → Bool)
        (appId : Str) (spawnPid : Option Nat) (now : Int) (r : AppRecord) (p : Str),
        alGet store appId = some r → r.executablePath = some p → fsE p = false →
        LauncherService.launchApp store running fsE appId spawnPid now =
          (store, running, .executableGone, false)) ∧
    (∀ (store : List (Str × AppRecord)) (running : List Str) (fsE : Str → Bool)
        (appId : Str) (spawnPid : Option Nat) (now : Int) (r : AppRecord) (p : Str),
        alGet store appId = some r → r.executablePath = some p → fsE p = true →
        appId ∈ running →
        LauncherService.launchApp store running fsE appId spawnPid now =
          (store, running, .alreadyRunning, false)) ∧
    (∀ (store : List (Str × AppRecord)) (running : List Str) (fsE : Str → Bool)
        (appId : Str) (spawnPid : Option Nat) (now : Int),
        (LauncherService.launchApp store running fsE appId spawnPid now).2.2.1 =
          .launched →
        spawnPid ≠ none ∧
        ∃ r, alGet store appId = some r ∧
          (LauncherService.launchApp store running fsE appId spawnPid now).1 =
            AppStore.updateLastLaunched store appId now ∧
          alGet (LauncherService.launchApp store running fsE appId spawnPid now).1
              appId = some { r with lastLaunched := some now } ∧
          (LauncherService.launchApp store running fsE appId spawnPid now).2.1 =
            appId :: running ∧
          (LauncherService.launchApp store running fsE appId spawnPid now).2.2.2 =
            true) := by
  refine ⟨?_, ?_, ?_, ?_, ?_⟩
  · intro store running fsE appId spawnPid now hg
    unfold LauncherService.launchApp
    rw [hg]
  · intro store running fsE appId spawnPid now r hg hexe
    unfold LauncherService.launchApp
    simp only [hg, hexe]
  · intro store running fsE appId spawnPid now r p hg hexe hfs
    unfold LauncherService.launchApp
    simp only [hg, hexe, hfs]
    simp
  · intro store running fsE appId spawnPid now r p hg hexe hfs hrun
    have hc : running.contains appId = true := by simpa using hrun
    unfold LauncherService.launchApp
    simp only [hg, hexe, hfs, hc]
    simp
  · intro store running fsE appId spawnPid now hl
    cases hg : alGet store appId with
    | none =>
        have hv : LauncherService.launchApp store running fsE appId spawnPid now =
            (store, running, .appNotInstalled, false) := by
          unfold LauncherService.launchApp; rw [hg]
        rw [hv] at hl
        simp at hl
    | some r =>
        cases hexe : r.executablePath with
        | none =>
            have hv : LauncherService.launchApp store running fsE appId spawnPid now =
                (store, running, .missingExecutablePath, false) := by
              unfold LauncherService.launchApp; simp only [hg, hexe]
            rw [hv] at hl
            simp at hl
        | some p =>
            cases hfs : fsE p with
            | false =>
                have hv : LauncherService.launchApp store running fsE appId spawnPid now =
                    (store, running, .executableGone, false) := by
                  unfold LauncherService.launchApp; simp [hg, hexe, hfs]
                rw [hv] at hl
                simp at hl
            | true =>
                cases hr : running.contains appId with
                | true =>
                    have hrm : appId ∈ running := by simpa using hr
                    have hv : LauncherService.launchApp store running fsE appId spawnPid
                        now = (store, running, .alreadyRunning, false) := by
                      unfold LauncherService.launchApp; simp [hg, hexe, hfs, hrm]
                    rw [hv] at hl
                    simp at hl
                | false =>
                    have hrm : appId ∉ running := by simpa using hr
                    cases spawnPid with
                    | none =>
                        have hv : LauncherService.launchApp store running fsE appId
                            none now = (store, running, .launchStartError, true) := by
                          unfold LauncherService.launchApp; simp [hg, hexe, hfs, hrm]
                        rw [hv] at hl
                        simp at hl
                    | some pid =>
                        have hv : LauncherService.launchApp store running fsE appId
                            (some pid) now =
                            (AppStore.updateLastLaunched store appId now,
                             appId :: running, .launched, true) := by
                          unfold LauncherService.launchApp; simp [hg, hexe, hfs, hrm]
                        rw [hv]
                        exact ⟨by simp, r, rfl, rfl,
                          by rw [alGet_updateLastLaunched, hg]; rfl, rfl, rfl⟩

/-- C7 witness: a launch request for an identity with no AppRecord fails with
NotInstalled and performs no spawn. -/
theorem c7_witness :
    LauncherService.launchApp [] [] (fun _ => false) (str "ghost") (some 1) 0 =
      ([], [], .appNotInstalled, false) :=
  c7_launch_guards.1 [] [] (fun _ => false) (str "ghost") (some 1) 0 (by decide)

/-- C1: in a probed directory with at least one `.exe`, the chosen executable is
the first name-matching one when any exists; else the first whose name contains no
installer-noise substring when any exists; else the first `.exe` listed. On the
scenario listing `[app.exe, setup.exe, MyApp Helper.exe]` with app name `MyApp`
the choice is `MyApp Helper.exe`, and on every sub-listing of that scenario
`setup.exe` is chosen only when it is the only file present. -/
theorem c1_executable_search_precedence :
    (∀ (files : List Str) (appName : Str),
        (∃ f ∈ files.filter InstallManager.isExeName,
            InstallManager.matchesAppName appName f = true) →
        ∃ l1 c l2, files.filter InstallManager.isExeName = l1 ++ c :: l2 ∧
          InstallManager.probeDirectory files appName = some c ∧
          InstallManager.matchesAppName appName c = true ∧
          ∀ f ∈ l1, InstallManager.matchesAppName appName f = false) ∧
    (∀ (files : List Str) (appName : Str),
        (∀ f ∈ files.filter InstallManager.isExeName,
            InstallManager.matchesAppName appName f = false) →
        (∃ f ∈ files.filter InstallManager.isExeName,
            InstallManager.isNonInstallerName f = true) →
        ∃ l1 c l2, files.filter InstallManager.isExeName = l1 ++ c :: l2 ∧
          InstallManager.probeDirectory files appName = some c ∧
          InstallManager.isNonInstallerName c = true ∧
          ∀ f ∈ l1, InstallManager.isNonInstallerName f = false) ∧
    (∀ (files : List Str) (appName : Str),
        (∀ f ∈ files.filter InstallManager.isExeName,
            InstallManager.matchesAppName appName f = false) →
        (∀ f ∈ files.filter InstallManager.isExeName,
            InstallManager.isNonInstallerName f = false) →
        InstallManager.probeDirectory files appName =
          (files.filter InstallManager.isExeName).head?) ∧
    InstallManager.probeDirectory InstallManager.demoDirListing (str "MyApp") =
      some (str "MyApp Helper.exe") ∧
    (∀ l ∈ InstallManager.demoDirListing.sublists,
        InstallManager.probeDirectory l (str "MyApp") = some (str "setup.exe") →
        l = [str "setup.exe"]) := by
  refine ⟨?_, ?_, ?_, by decide, by decide⟩
  · intro files appName hex
    obtain ⟨f, hf, hpf⟩ := hex
    obtain ⟨c, hc⟩ := find?_isSome_of_mem _ _ f hf hpf
    obtain ⟨l1, l2, hsplit, hfront, hpc⟩ := find?_split _ _ _ hc
    refine ⟨l1, c, l2, hsplit, ?_, hpc, hfront⟩
    unfold InstallManager.probeDirectory InstallManager.chooseExe
    rw [hc]
  · intro files appName hno hex
    have hfm : (files.filter InstallManager.isExeName).find?
        (InstallManager.matchesAppName appName) = none :=
      find?_eq_none_of_forall _ _ hno
    obtain ⟨f, hf, hpf⟩ := hex
    obtain ⟨c, hc⟩ := find?_isSome_of_mem _ _ f hf hpf
    obtain ⟨l1, l2, hsplit, hfront, hpc⟩ := find?_split _ _ _ hc
    refine ⟨l1, c, l2, hsplit, ?_, hpc, hfront⟩
    unfold InstallManager.probeDirectory InstallManager.chooseExe
    rw [hfm, hc]
  · intro files appName hno1 hno2
    have hfm : (files.filter InstallManager.isExeName).find?
        (InstallManager.matchesAppName appName) = none :=
      find?_eq_none_of_forall _ _ hno1
    have hfn : (files.filter InstallManager.isExeName).find?
        InstallManager.isNonInstallerName = none :=
      find?_eq_none_of_forall _ _ hno2
    unfold InstallManager.probeDirectory InstallManager.chooseExe
    rw [hfm, hfn]

/-- C1 witness: the name-match tier applied to the scenario listing, choosing
`MyApp Helper.exe`. -/
theorem c1_witness :
    ∃ l1 c l2,
      InstallManager.demoDirListing.filter InstallManager.isExeName =
        l1 ++ c :: l2 ∧
      InstallManager.probeDirectory InstallManager.demoDirListing (str "MyApp") =
        some c ∧
      InstallManager.matchesAppName (str "MyApp") c = true ∧
      ∀ f ∈ l1, InstallManager.matchesAppName (str "MyApp") f = false :=
  c1_executable_search_precedence.1 InstallManager.demoDirListing (str "MyApp")
    ⟨str "MyApp Helper.exe", by decide, by decide⟩

/-- C8 counterexample: with install hint `D:\hint`, app name and identity `app`
and no source URL, the non-recursive phase's candidate set contains the
per-name hint subdirectory `D:\hint\app` while the recursive phase's root set
does not — the two root sets are not equal. -/
theorem c8_counterexample :
    pathJoin (str "D:\\hint") (str "app") ∈
        InstallManager.nonRecursiveSearchPaths (str "D:\\hint")
          (InstallManager.searchNamesFor (str "app") (some (str "app")) none)
          (str "C:\\L") (str "C:\\R") ∧
    pathJoin (str "D:\\hint") (str "app") ∉
        InstallManager.recursiveSearchPaths (str "D:\\hint")
          (InstallManager.searchNamesFor (str "app") (some (str "app")) none)
          (str "C:\\L") (str "C:\\R") := by
  decide

/-- C8 (amended): the recursive phase's root set is a subset of the non-recursive
phase's candidate set (it omits the per-name hint subdirectories and the per-user
local `Programs` entries), and the recursive phase returns the first `.exe`
encountered in traversal order within depth 3: its result list is exactly the
`.exe`-filtered projection of the depth-bounded visit order, and the probe takes
that list's head. -/
theorem c8_recursive_phase :
    (∀ (installDir : Str) (names : List Str) (localAppData appData x : Str),
        x ∈ InstallManager.recursiveSearchPaths installDir names localAppData appData →
        x ∈ InstallManager.nonRecursiveSearchPaths installDir names localAppData
              appData) ∧
    (∀ (base : Str) (entries : List InstallManager.FSEntry),
        InstallManager.findExecsEntries 3 0 base entries =
          ((InstallManager.visitedFilesEntries 3 0 base entries).filter
              (fun q => InstallManager.isExeName q.2)).map Prod.fst ∧
        InstallManager.recursiveProbe base entries =
          (((InstallManager.visitedFilesEntries 3 0 base entries).filter
              (fun q => InstallManager.isExeName q.2)).map Prod.fst).head?) := by
  constructor
  · intro installDir names localAppData appData x hx
    simp only [InstallManager.recursiveSearchPaths, mem_dedupFirst] at hx
    simp only [InstallManager.nonRecursiveSearchPaths, mem_dedupFirst]
    rcases List.mem_cons.mp hx with rfl | hx'
    · exact List.mem_append_right _ (by simp)
    · obtain ⟨name, hn, hp⟩ := List.mem_flatMap.mp hx'
      apply List.mem_append_left
      apply List.mem_flatMap.mpr
      refine ⟨name, hn, ?_⟩
      simp only [List.mem_cons, List.not_mem_nil, or_false] at hp
      rcases hp with rfl | rfl | rfl | rfl <;> simp
  · intro base entries
    refine ⟨InstallManager.findExecs_eq_visited 3 0 base entries, ?_⟩
    unfold InstallManager.recursiveProbe
    rw [InstallManager.findExecs_eq_visited 3 0 base entries]

/-- C8 witness: the raw hint directory, a recursive-phase root, is also a
non-recursive-phase candidate. -/
theorem c8_witness :
    (str "D:\\hint") ∈
      InstallManager.nonRecursiveSearchPaths (str "D:\\hint") [str "app"]
        (str "C:\\L") (str "C:\\R") :=
  c8_recursive_phase.1 (str "D:\\hint") [str "app"] (str "C:\\L") (str "C:\\R")
    (str "D:\\hint") (by decide)

end AppsDashboard
